import Mathlib

/-!
Verification development for the `yolo_task_manager_cn` package
(repository YoloForWeb): a shallow embedding, in Lean, of

* `storage/local_fs.py` — `LocalFileSystemStorage` (save / delete /
  get-path over a per-user `models` directory),
* `manager.py` — `YoloTaskManager.train` (submission) and
  `YoloTaskManager._train_job` (the job body run on the thread pool),
  together with the semaphore admission discipline
  (`_get_user_sem`, `global_sem`),
* `storage/mysql.py` — `MySQLRunStateStorage.save` / `load_all`.

Conventions of the embedding:

* A user's `models` directory is a list of file entries in directory
  iteration (glob) order; `pathlib.Path.glob(pattern ++ "*")` name
  matching is character-list prefix matching on the file name.
* File modification times (`st_mtime_ns` / `st_mtime`) are naturals;
  `shutil.copy2` preserves the source's mtime on the copy.
* Metric values reported by the training capability (floats in
  Python, passed through `float(...)` unchanged) are carried by an
  opaque numeric carrier `Int`; only equality of carried values
  matters to the claims.
* Exceptions are modelled by explicit success flags / `Option`
  results; `try/finally` by unconditionally appending the release
  events of the `finally` block.
* In `manager.py` the statement `state["final_model_path"] = str(saved_path)`
  (line 155) is written at column 0 in the file, which is a formatting
  slip (the module would not even import); it is embedded at its
  evident position inside the enclosing `try` block, between the
  artifact save and the `run_db.save` call.
-/

namespace YoloForWeb

/-- One file in a user's `models` directory: its name, its modification
time (`st_mtime_ns`, preserved by `shutil.copy2`), and an opaque
content identifier distinguishing distinct source files. -/
structure FSEntry where
  name : String
  mtime : Nat
  content : Nat
deriving DecidableEq, Repr

/-- A user's `models` directory, in directory iteration order.
New files are appended. -/
abbrev Dir := List FSEntry

/-- Name matching of `models_dir.glob(f"\x7bmodel_name\x7d*")`:
the file name starts with `model_name`. -/
def globMatch (model_name : String) (e : FSEntry) : Bool :=
  model_name.data.isPrefixOf e.name.data

/-- The `p.name.endswith(".labels")` test of `local_fs.py`. -/
def isLabelsFile (e : FSEntry) : Bool :=
  ".labels".data.isSuffixOf e.name.data

/-- A source file handed to `save_model`: its `st_mtime_ns`, its
extension (`src_path.suffix or ".pt"` already applied), and content. -/
structure SrcFile where
  mtime : Nat
  suffix : String
  content : Nat
deriving DecidableEq, Repr

/-- `dest_name = f"\x7bmodel_name\x7d_\x7btimestamp\x7d\x7bsuffix\x7d"` with
`timestamp = src_path.stat().st_mtime_ns` (local_fs.py line 33-35). -/
def destName (model_name : String) (src : SrcFile) : String :=
  model_name ++ "_" ++ Nat.repr src.mtime ++ src.suffix

/-- Writing `dest_path`: `shutil.copy2` replaces an existing file of
the same name, otherwise the new file appears in the directory. -/
def writeFile (dir : Dir) (e : FSEntry) : Dir :=
  if dir.any (fun x => x.name == e.name) then
    dir.map (fun x => if x.name == e.name then e else x)
  else
    dir ++ [e]

/-- `LocalFileSystemStorage.save_model` (local_fs.py lines 30-42),
label handling elided (labels are written to a separate
`dest_name ++ ".labels"` file and are not consulted by the claims
about `save_model` itself). Returns the new directory and the
destination name. `copy2` preserves the source mtime on the copy. -/
def save_model (dir : Dir) (model_name : String) (src : SrcFile) :
    Dir × String :=
  let dest := destName model_name src
  (writeFile dir ⟨dest, src.mtime, src.content⟩, dest)

/-- `LocalFileSystemStorage.delete_model` (local_fs.py lines 59-70):
unlinks every file matching `glob(f"\x7bmodel_name\x7d*")` (the second
loop over `glob(f"\x7bmodel_name\x7d*.labels")` only revisits files the
first loop already removed); returns whether anything was deleted. -/
def delete_model (dir : Dir) (model_name : String) : Dir × Bool :=
  (dir.filter (fun e => !(globMatch model_name e)),
   dir.any (fun e => globMatch model_name e))

/-- The candidate list of `get_model_path` (local_fs.py lines 74-78):
files matching `glob(f"\x7bmodel_name\x7d*")` that are not `.labels`
files, in directory order. -/
def candidates (dir : Dir) (model_name : String) : List FSEntry :=
  dir.filter (fun e => globMatch model_name e && !(isLabelsFile e))

/-- Insertion step of a stable descending sort by mtime, the order
produced by `candidates.sort(key=lambda p: p.stat().st_mtime, reverse=True)`
(Python's sort is stable; `reverse=True` keeps equal keys in
original order). -/
def insertByMtime (e : FSEntry) : List FSEntry → List FSEntry
  | [] => [e]
  | x :: xs => if x.mtime ≤ e.mtime then e :: x :: xs else x :: insertByMtime e xs

/-- Stable descending sort by mtime (see `insertByMtime`). -/
def sortByMtimeDesc : List FSEntry → List FSEntry
  | [] => []
  | x :: xs => insertByMtime x (sortByMtimeDesc xs)

/-- `LocalFileSystemStorage.get_model_path` (local_fs.py lines 72-82):
sorts the candidates by mtime descending and returns the first;
`none` models the `FileNotFoundError` raised when no file matches. -/
def get_model_path (dir : Dir) (model_name : String) : Option FSEntry :=
  (sortByMtimeDesc (candidates dir model_name)).head?

/-- The in-memory run record created by `YoloTaskManager.train`
(manager.py lines 64-73), without the `future`/`callbacks` handles
(opaque to the claims). `epochs` is an `Int`: the code puts the
caller's value in the record unexamined, negative values included. -/
structure RunRecord where
  user_id : String
  run_name : String
  base_model : String
  dataset_dir : String
  epochs : Int
  final_model_path : Option String
deriving DecidableEq, Repr

/-- The in-memory run registry `self._runs`, newest first. -/
abbrev Registry := List (String × RunRecord)

/-- `YoloTaskManager.train` (manager.py lines 59-77): builds the
record, stores it under the fresh `run_id`, submits the job body to
the pool (submission has no effect on the registry) and returns
`run_id`. There is no validation of any argument. -/
def train (runs : Registry) (run_id user_id base_model dataset_dir : String)
    (epochs : Int) (run_name : String) : Registry × String :=
  ((run_id, ⟨user_id, run_name, base_model, dataset_dir, epochs, none⟩) :: runs,
   run_id)

/-- Result of the training capability `model.train(...)` when it
returns: the per-epoch loss and mAP sequences read from
`results.box.losses` / `results.box.maps`, and the artifact
location. Metric values are carried opaquely by `Int`. -/
structure TrainResult where
  losses : List Int
  maps : List Int
  savedPath : String
deriving DecidableEq, Repr

/-- Failure-injection oracle for one `_train_job` execution: which of
the external calls of the job body raise. `trainOutcome = none`
models the training capability raising; `boxAttrRaises` models the
`results.box.losses` attribute access raising (caught at
manager.py lines 128-133); `metricRaises i` models
`metrics_db.save_metric` raising at loop index `i` (manager.py
line 139, not guarded by any `except`); `cbRaises i` models the
user callback raising at loop index `i` (guarded, lines 142-145);
`saveModelRaises` models `storage_backend.save_model` raising;
`runDbRaises` models `run_db.save` raising (line 157, unguarded). -/
structure Oracle where
  trainOutcome : Option TrainResult
  boxAttrRaises : Bool
  metricRaises : Nat → Bool
  cbRaises : Nat → Bool
  saveModelRaises : Bool
  runDbRaises : Bool

/-- Observable actions of the job body, in program order. -/
inductive Event where
  | metricSaved (epoch : Nat) (loss mAP : Int)
  | cbCalled (epoch : Nat) (loss mAP : Int)
  | artifactSaved (path : String)
  | runDbSaved (rec : RunRecord)
  | userSemReleased
  | globalSemReleased
deriving DecidableEq, Repr

/-- The metrics loop `for idx in range(epochs)` (manager.py lines
134-145), from loop index `idx` with `n` iterations left. Each
iteration reads `losses[idx]` / `maps[idx]` with default `0.0`,
calls `metrics_db.save_metric(run_id, idx + 1, metrics)` — if that
raises the exception propagates and the loop aborts — then invokes
the callback (when present) with the same values, swallowing any
exception it raises. Returns the events and whether the loop ran to
completion. -/
def runEpochs (o : Oracle) (losses maps : List Int) (cb : Bool) :
    Nat → Nat → List Event × Bool
  | _, 0 => ([], true)
  | idx, n + 1 =>
    if o.metricRaises idx then ([], false)
    else
      let loss := losses.getD idx 0
      let mAP := maps.getD idx 0
      let cbEvs := if cb && !(o.cbRaises idx) then
          [Event.cbCalled (idx + 1) loss mAP] else []
      let rest := runEpochs o losses maps cb (idx + 1) n
      (Event.metricSaved (idx + 1) loss mAP :: cbEvs ++ rest.1, rest.2)

/-- Outcome of one `_train_job` execution: the event trace, the
record's `final_model_path` afterwards, and whether an exception
escaped `_train_job` into the pool future (`raised`). -/
structure JobResult where
  events : List Event
  final_model_path : Option String
  raised : Bool
deriving DecidableEq, Repr

/-- The `try` block of `_train_job` (manager.py lines 122-167; line
155 at its evident indentation, see the module comment): train, read
the per-epoch metric lists (empty on attribute error), run the
metrics loop, save the artifact, set `final_model_path`, persist the
final record to `run_db`. Any uncaught exception aborts the rest of
the block. -/
def trainJobBody (rec : RunRecord) (cb : Bool) (o : Oracle) : JobResult :=
  match o.trainOutcome with
  | none => ⟨[], rec.final_model_path, true⟩
  | some res =>
    let losses := if o.boxAttrRaises then [] else res.losses
    let maps := if o.boxAttrRaises then [] else res.maps
    let loop := runEpochs o losses maps cb 0 rec.epochs.toNat
    if !loop.2 then ⟨loop.1, rec.final_model_path, true⟩
    else if o.saveModelRaises then ⟨loop.1, rec.final_model_path, true⟩
    else
      let evs := loop.1 ++ [Event.artifactSaved res.savedPath]
      let final := some res.savedPath
      if o.runDbRaises then ⟨evs, final, true⟩
      else
        ⟨evs ++ [Event.runDbSaved ⟨rec.user_id, rec.run_name, rec.base_model,
                  rec.dataset_dir, rec.epochs, final⟩], final, false⟩

/-- `_train_job` (manager.py lines 110-170): the `try` block followed
by the `finally` block, which releases the user semaphore and then
the global semaphore on every exit path. -/
def trainJob (rec : RunRecord) (cb : Bool) (o : Oracle) : JobResult :=
  let r := trainJobBody rec cb o
  ⟨r.events ++ [Event.userSemReleased, Event.globalSemReleased],
   r.final_model_path, r.raised⟩

/-- The metric-append events of a trace, as `(epoch, loss, mAP)`. -/
def metricEvents (evs : List Event) : List (Nat × Int × Int) :=
  evs.filterMap fun e =>
    match e with
    | Event.metricSaved ep l m => some (ep, l, m)
    | _ => none

/-- Whether a trace contains an artifact-save action. -/
def savedArtifact (evs : List Event) : Bool :=
  evs.any fun e =>
    match e with
    | Event.artifactSaved _ => true
    | _ => false

/-- Whether an event is a callback invocation. -/
def isCbEvent (e : Event) : Bool :=
  match e with
  | Event.cbCalled _ _ _ => true
  | _ => false

/-- A trace with the callback invocations removed: everything the job
body did apart from calling the user's progress hook. -/
def stripCb (evs : List Event) : List Event :=
  evs.filter (fun e => !(isCbEvent e))

/-- Whether a trace contains a `run_db.save` action. -/
def ranRunDb (evs : List Event) : Bool :=
  evs.any fun e =>
    match e with
    | Event.runDbSaved _ => true
    | _ => false


/-- A JSON value as stored in the `data` column of the `runs` table:
the records `MySQLRunStateStorage.save` receives are flat mappings of
strings, numbers and `None` (manager.py lines 157-167). -/
inductive JVal where
  | str (v : String)
  | int (v : Int)
  | null
deriving DecidableEq, Repr

/-- `json.dumps` of the dictionary persisted at manager.py lines
158-166: the field list of the final run record, in order. -/
def encodeRun (r : RunRecord) : List (String × JVal) :=
  [("user_id", JVal.str r.user_id),
   ("run_name", JVal.str r.run_name),
   ("base_model", JVal.str r.base_model),
   ("dataset_dir", JVal.str r.dataset_dir),
   ("epochs", JVal.int r.epochs),
   ("final_model_path",
     match r.final_model_path with
     | some p => JVal.str p
     | none => JVal.null)]

/-- `json.loads` of a stored `data` value back into a run record;
`none` models a parse failure (mapped to `\x7b\x7d` by `load_all`, a case
that cannot arise for rows written by `save`). -/
def decodeRun (l : List (String × JVal)) : Option RunRecord :=
  match l with
  | [("user_id", JVal.str u), ("run_name", JVal.str rn),
     ("base_model", JVal.str bm), ("dataset_dir", JVal.str dd),
     ("epochs", JVal.int ep), ("final_model_path", fp)] =>
    match fp with
    | JVal.str p => some ⟨u, rn, bm, dd, ep, some p⟩
    | JVal.null => some ⟨u, rn, bm, dd, ep, none⟩
    | JVal.int _ => none
  | _ => none

/-- The `runs` table: rows of `(run_id, data)` with `run_id` the
primary key, in insertion order. -/
abbrev RunTable := List (String × List (String × JVal))

/-- `MySQLRunStateStorage.save` (mysql.py lines 86-95):
`REPLACE INTO runs (run_id, data) VALUES (...)` deletes the row that
conflicts on the primary key `run_id` (if any) and inserts the new
row. Row order is immaterial: `load_all` keys its result by
`run_id`, which the primary key keeps unique. -/
def storeSave (tbl : RunTable) (run_id : String) (r : RunRecord) : RunTable :=
  tbl.filter (fun p => !(p.1 == run_id)) ++ [(run_id, encodeRun r)]

/-- Persist a batch of records through `MySQLRunStateStorage.save`,
in order, starting from an empty table. -/
def saveAll (l : List (String × RunRecord)) : RunTable :=
  l.foldl (fun tbl p => storeSave tbl p.1 p.2) []

/-- `MySQLRunStateStorage.load_all` (mysql.py lines 97-112): reads
every row and parses its `data`; the resulting mapping looked up at
one `run_id` (row order is immaterial because `run_id` is the
primary key). -/
def load_all (tbl : RunTable) (run_id : String) : Option RunRecord :=
  match tbl.find? (fun p => p.1 == run_id) with
  | some p => decodeRun p.2
  | none => none

/-- Program counter of one job through `_get_user_sem` and the
semaphore acquisitions of `_train_job` (manager.py lines 50-54 and
118-121). The statements of `_get_user_sem` are separate steps: a
thread switch can occur between the membership test, the
`self.user_sems[user_id] = threading.Semaphore(1)` store, and the
`return self.user_sems[user_id]` read. -/
inductive Pc where
  | pcTest      -- about to run `if user_id not in self.user_sems`
  | pcStore     -- test saw the key absent; about to create + store
  | pcReturn    -- about to read `self.user_sems[user_id]` into a local
  | pcAcqGlobal -- holds a semaphore reference; at `self.global_sem.acquire()`
  | pcAcqUser   -- holds the global slot; at `user_sem.acquire()`
  | pcRunning   -- inside the `try` block (training)
  | pcDone      -- `finally` ran: both releases done
deriving DecidableEq, Repr

/-- State of one job thread: its program counter and the semaphore
reference (index into the allocation list) its local `user_sem`
variable holds. -/
structure JobSt where
  pc : Pc
  mySem : Option Nat
deriving DecidableEq, Repr

/-- Shared state: the `self.user_sems` entry for the one tenant in
play, the allocator of semaphore objects, each allocated semaphore's
counter (all created as `Semaphore(1)`), and the global semaphore's
counter. -/
structure Shared where
  dict : Option Nat
  semVals : List Nat
  globalVal : Nat
deriving DecidableEq, Repr

/-- One atomic step of one job thread, faithful to the statement
granularity of manager.py. Blocked semaphore acquisitions leave the
state unchanged. `pcRunning → pcDone` performs both releases of the
`finally` block. -/
def jobStep (sh : Shared) (j : JobSt) : Shared × JobSt :=
  match j.pc with
  | Pc.pcTest =>
    (sh, ⟨if sh.dict.isNone then Pc.pcStore else Pc.pcReturn, j.mySem⟩)
  | Pc.pcStore =>
    (⟨some sh.semVals.length, sh.semVals ++ [1], sh.globalVal⟩,
     ⟨Pc.pcReturn, j.mySem⟩)
  | Pc.pcReturn =>
    (sh, ⟨Pc.pcAcqGlobal, sh.dict⟩)
  | Pc.pcAcqGlobal =>
    if sh.globalVal > 0 then
      (⟨sh.dict, sh.semVals, sh.globalVal - 1⟩, ⟨Pc.pcAcqUser, j.mySem⟩)
    else (sh, j)
  | Pc.pcAcqUser =>
    match j.mySem with
    | some s =>
      if sh.semVals.getD s 0 > 0 then
        (⟨sh.dict, sh.semVals.set s (sh.semVals.getD s 0 - 1), sh.globalVal⟩,
         ⟨Pc.pcRunning, j.mySem⟩)
      else (sh, j)
    | none => (sh, j)
  | Pc.pcRunning =>
    match j.mySem with
    | some s =>
      (⟨sh.dict, sh.semVals.set s (sh.semVals.getD s 0 + 1), sh.globalVal + 1⟩,
       ⟨Pc.pcDone, j.mySem⟩)
    | none => (sh, j)
  | Pc.pcDone => (sh, j)

/-- Two jobs of the same tenant plus the shared state. -/
structure CState where
  shared : Shared
  job0 : JobSt
  job1 : JobSt
deriving DecidableEq, Repr

/-- Interleaving: the scheduler picks which job thread runs its next
atomic step (`false` = job 0, `true` = job 1). -/
def schedStep (s : CState) (pick : Bool) : CState :=
  if pick then
    let r := jobStep s.shared s.job1
    ⟨r.1, s.job0, r.2⟩
  else
    let r := jobStep s.shared s.job0
    ⟨r.1, r.2, s.job1⟩

/-- Run a finite schedule from a state. -/
def runSched (s : CState) : List Bool → CState
  | [] => s
  | p :: ps => runSched (schedStep s p) ps

/-- Initial state: the tenant's semaphore does not exist yet
(`user_sems` empty), the global semaphore was constructed with
`global_limit` slots, both jobs are about to enter `_get_user_sem`. -/
def initState (global_limit : Nat) : CState :=
  ⟨⟨none, [], global_limit⟩, ⟨Pc.pcTest, none⟩, ⟨Pc.pcTest, none⟩⟩

/-- Both same-tenant jobs are inside the training critical section. -/
def bothRunning (s : CState) : Bool :=
  s.job0.pc == Pc.pcRunning && s.job1.pc == Pc.pcRunning

/-- Number of jobs inside the training critical section. -/
def runningCount (s : CState) : Nat :=
  (if s.job0.pc = Pc.pcRunning then 1 else 0) +
  (if s.job1.pc = Pc.pcRunning then 1 else 0)

/-- Per-job part of the safety invariant for runs that start after the
tenant's semaphore already exists: the creation branch is never
entered, and from `pcAcqGlobal` on the job holds a reference to the
one existing semaphore object. -/
def jobOk (j : JobSt) : Prop :=
  j.pc ≠ Pc.pcStore ∧
  ((j.pc = Pc.pcAcqGlobal ∨ j.pc = Pc.pcAcqUser ∨ j.pc = Pc.pcRunning ∨
      j.pc = Pc.pcDone) → j.mySem = some 0)

/-- Safety invariant when the tenant semaphore pre-exists: the
registry points at semaphore 0, only that semaphore exists, and its
counter plus the number of running jobs is the constant 1. -/
def semInv (s : CState) : Prop :=
  s.shared.dict = some 0 ∧ s.shared.semVals.length = 1 ∧
  jobOk s.job0 ∧ jobOk s.job1 ∧
  s.shared.semVals.getD 0 0 + runningCount s = 1

/-- Initial state in which the tenant's `Semaphore(1)` already exists
(a prior job of this tenant created it). -/
def initStatePre (global_limit : Nat) : CState :=
  ⟨⟨some 0, [1], global_limit⟩, ⟨Pc.pcTest, none⟩, ⟨Pc.pcTest, none⟩⟩

/-! ## Helper lemmas -/

theorem strAppend_right_inj (a b c : String) : a ++ b = a ++ c ↔ b = c := by
  constructor
  · intro h
    have hd : a.data ++ b.data = a.data ++ c.data := by
      have := congrArg String.data h
      simpa [String.data_append] using this
    exact String.ext ((List.append_right_inj a.data).1 hd)
  · intro h; rw [h]

theorem strAppend_assoc (a b c : String) : a ++ b ++ c = a ++ (b ++ c) := by
  apply String.ext
  simp [String.data_append]

theorem destName_eq_iff (m : String) (s1 s2 : SrcFile) :
    destName m s1 = destName m s2 ↔
      Nat.repr s1.mtime ++ s1.suffix = Nat.repr s2.mtime ++ s2.suffix := by
  unfold destName
  rw [strAppend_assoc, strAppend_assoc, strAppend_assoc, strAppend_assoc,
    strAppend_right_inj, strAppend_right_inj]

theorem mem_writeFile_self (dir : Dir) (e : FSEntry) : e ∈ writeFile dir e := by
  unfold writeFile
  by_cases h : dir.any (fun x => x.name == e.name) = true
  · simp only [h, if_pos]
    rcases List.any_eq_true.1 h with ⟨x, hx, hname⟩
    exact List.mem_map.2 ⟨x, hx, by simp [hname]⟩
  · simp only [h]
    simp

theorem writeFile_preserve (dir : Dir) (e x : FSEntry) (hx : x ∈ dir)
    (hne : x.name ≠ e.name) : x ∈ writeFile dir e := by
  unfold writeFile
  by_cases h : dir.any (fun y => y.name == e.name) = true
  · simp only [h, if_pos]
    exact List.mem_map.2 ⟨x, hx, by simp [hne]⟩
  · simp only [h]
    simp [hx]

theorem writeFile_name_unique (dir : Dir) (e x : FSEntry)
    (hx : x ∈ writeFile dir e) (hname : x.name = e.name) : x = e := by
  unfold writeFile at hx
  by_cases h : dir.any (fun y => y.name == e.name) = true
  · simp only [h, if_pos] at hx
    rcases List.mem_map.1 hx with ⟨y, _, hy⟩
    by_cases hyn : y.name == e.name
    · simp [hyn] at hy; exact hy.symm
    · simp [hyn] at hy
      rw [← hy] at hname
      exact absurd (by simp [hname]) hyn
  · simp only [h] at hx
    simp at hx
    rcases hx with hx | hx
    · exfalso
      exact h (List.any_eq_true.2 ⟨x, hx, by simp [hname]⟩)
    · exact hx

/-! ## Claims -/

/-- C1 (counterexample): on a training-capability failure the job body
performs no write whatsoever: the run record is left exactly as it
was (in particular it is not marked `Failed` — the record has no
state field), no record is persisted, and the exception escapes
`_train_job` into the pool future; only the two semaphore releases
happen. This refutes the claimed transition of the record to a
`Failed` state. -/
theorem C1_counterexample :
    trainJob ⟨"alice", "run", "yolov8n.pt", "ds", 3, none⟩ false
        ⟨none, false, fun _ => false, fun _ => false, false, false⟩ =
      ⟨[Event.userSemReleased, Event.globalSemReleased], none, true⟩ ∧
    ranRunDb (trainJob ⟨"alice", "run", "yolov8n.pt", "ds", 3, none⟩ false
        ⟨none, false, fun _ => false, fun _ => false, false, false⟩).events = false := by
  constructor <;> rfl

/-- C1 (amended): for every run whose training capability raises, the
job body releases both admission slots (user semaphore first, then
the global one, from the `finally` block), leaves the record's
`final_model_path` exactly as it was (unset for a freshly submitted
run), performs no other action, and lets the exception escape into
the pool future; no `Failed`-state marking exists because the run
record has no state field. -/
theorem C1_failure_path (rec : RunRecord) (cb : Bool) (o : Oracle)
    (h : o.trainOutcome = none) :
    trainJob rec cb o =
      ⟨[Event.userSemReleased, Event.globalSemReleased],
       rec.final_model_path, true⟩ := by
  simp [trainJob, trainJobBody, h]

/-- C1 (witness): the failure path evaluated on a concrete run. -/
theorem C1_failure_path_witness :
    trainJob ⟨"bob", "r", "m.pt", "d", 2, none⟩ true
        ⟨none, true, fun _ => true, fun _ => true, true, true⟩ =
      ⟨[Event.userSemReleased, Event.globalSemReleased], none, true⟩ :=
  C1_failure_path ⟨"bob", "r", "m.pt", "d", 2, none⟩ true
    ⟨none, true, fun _ => true, fun _ => true, true, true⟩ rfl

/-- C2 (counterexample): submitting with `epoch_count = -1` is not
rejected: `train` stores a run record (with the negative epoch count)
in the registry and returns the `run_id`, so the claimed synchronous
validation does not exist. -/
theorem C2_counterexample :
    train [] "r1" "alice" "yolov8n.pt" "ds" (-1) "run" =
      ([("r1", ⟨"alice", "run", "yolov8n.pt", "ds", -1, none⟩)], "r1") := rfl

/-- C2 (amended): `train` performs no validation of `epoch_count` (or
of anything else): for every epoch count, negative included, a record
carrying exactly the given fields and no `final_model_path` is stored
in the registry under the fresh `run_id`, and the `run_id` is
returned immediately. -/
theorem C2_no_validation (runs : Registry)
    (run_id user_id base_model dataset_dir : String) (epochs : Int)
    (run_name : String) :
    ((train runs run_id user_id base_model dataset_dir epochs run_name).1.lookup
        run_id =
      some ⟨user_id, run_name, base_model, dataset_dir, epochs, none⟩) ∧
    (train runs run_id user_id base_model dataset_dir epochs run_name).2 =
      run_id := by
  constructor
  · simp [train, List.lookup]
  · rfl

/-- C4 (counterexample): two successive saves of the same unchanged
source file (same `st_mtime_ns`) for the same `(tenant, model_name)`
produce the same destination name, and the second save overwrites the
first: afterwards the directory holds a single file carrying the
second save's content. -/
theorem C4_counterexample :
    (save_model [] "m" ⟨100, ".pt", 1⟩).2 =
      (save_model (save_model [] "m" ⟨100, ".pt", 1⟩).1 "m" ⟨100, ".pt", 2⟩).2 ∧
    (save_model (save_model [] "m" ⟨100, ".pt", 1⟩).1 "m" ⟨100, ".pt", 2⟩).1 =
      [⟨"m_100.pt", 100, 2⟩] := by
  constructor <;> rfl

/-- C4 (amended): the destination name depends only on `model_name`
and the source file's `(st_mtime_ns, extension)` — not on the save
time or on prior saves. Two successive saves for the same
`(tenant, model_name)` collide exactly when the rendered
timestamp-plus-extension coincide; when the names differ, both stored
files coexist afterwards; when they coincide, every file stored under
that name afterwards is the second save's. -/
theorem C4_name_from_source (dir : Dir) (m : String) (s1 s2 : SrcFile) :
    ((save_model dir m s1).2 =
        (save_model (save_model dir m s1).1 m s2).2 ↔
      Nat.repr s1.mtime ++ s1.suffix = Nat.repr s2.mtime ++ s2.suffix) ∧
    ((save_model dir m s1).2 ≠ (save_model (save_model dir m s1).1 m s2).2 →
      (⟨destName m s1, s1.mtime, s1.content⟩ : FSEntry) ∈
          (save_model (save_model dir m s1).1 m s2).1 ∧
      (⟨destName m s2, s2.mtime, s2.content⟩ : FSEntry) ∈
          (save_model (save_model dir m s1).1 m s2).1) ∧
    ((save_model dir m s1).2 = (save_model (save_model dir m s1).1 m s2).2 →
      ∀ e ∈ (save_model (save_model dir m s1).1 m s2).1,
        e.name = destName m s1 → e = ⟨destName m s2, s2.mtime, s2.content⟩) := by
  refine ⟨destName_eq_iff m s1 s2, ?_, ?_⟩
  · intro hne
    constructor
    · exact writeFile_preserve _ _ _ (mem_writeFile_self dir _) hne
    · exact mem_writeFile_self _ _
  · intro heq e he hename
    exact writeFile_name_unique _ _ _ he (hename.trans heq)

/-- C4 (witness): saves of two sources with distinct timestamps give
distinct names, and both stored files coexist. -/
theorem C4_name_from_source_witness :
    (⟨"m_100.pt", 100, 1⟩ : FSEntry) ∈
        (save_model (save_model [] "m" ⟨100, ".pt", 1⟩).1 "m" ⟨200, ".pt", 2⟩).1 ∧
    (⟨"m_200.pt", 200, 2⟩ : FSEntry) ∈
        (save_model (save_model [] "m" ⟨100, ".pt", 1⟩).1 "m" ⟨200, ".pt", 2⟩).1 := by
  have h := (C4_name_from_source [] "m" ⟨100, ".pt", 1⟩ ⟨200, ".pt", 2⟩).2.1
    (by decide)
  exact h

theorem candidates_delete (dir : Dir) (m : String) :
    candidates (delete_model dir m).1 m = [] := by
  unfold candidates delete_model
  induction dir with
  | nil => rfl
  | cons x xs ih =>
    by_cases h : globMatch m x
    · simpa [List.filter_cons, h] using ih
    · simpa [List.filter_cons, h] using ih

theorem globMatch_destName (m : String) (s : SrcFile) (mt c : Nat) :
    globMatch m ⟨destName m s, mt, c⟩ = true := by
  unfold globMatch destName
  rw [List.isPrefixOf_iff_prefix]
  show m.data <+: (m ++ "_" ++ Nat.repr s.mtime ++ s.suffix).data
  simp only [String.data_append, List.append_assoc]
  exact List.prefix_append _ _

theorem writeFile_fresh (dir : Dir) (e : FSEntry)
    (h : ∀ x ∈ dir, x.name ≠ e.name) : writeFile dir e = dir ++ [e] := by
  unfold writeFile
  have hany : dir.any (fun x => x.name == e.name) = false := by
    rw [List.any_eq_false]
    intro x hx
    simp [h x hx]
  simp [hany]

theorem head_sort_strict (e : FSEntry) (l : List FSEntry)
    (h : ∀ x ∈ l, x.mtime < e.mtime) :
    (sortByMtimeDesc (l ++ [e])).head? = some e := by
  induction l with
  | nil => rfl
  | cons x xs ih =>
    have hx : x.mtime < e.mtime := h x (List.mem_cons_self x xs)
    have htail : ∀ y ∈ xs, y.mtime < e.mtime := fun y hy =>
      h y (List.mem_cons_of_mem x hy)
    have ih2 := ih htail
    show (insertByMtime x (sortByMtimeDesc (xs ++ [e]))).head? = some e
    cases hs : sortByMtimeDesc (xs ++ [e]) with
    | nil => rw [hs] at ih2; exact absurd ih2 (by simp)
    | cons y t =>
      rw [hs] at ih2
      have hy : y = e := by simpa using ih2
      subst hy
      unfold insertByMtime
      have : ¬ (y.mtime ≤ x.mtime) := by omega
      simp [this]

/-- C5 (counterexample): `get_model_path` does not return the most
recently saved file: `shutil.copy2` preserves the source's mtime, and
selection sorts by stored mtime, so after saving a source with mtime
200 and then a source with mtime 100 under the same
`(tenant, model_name)`, `get_model_path` returns the first save
(`m_200.pt`), not the most recent one (`m_100.pt`). -/
theorem C5_counterexample :
    (save_model (save_model [] "m" ⟨200, ".pt", 1⟩).1 "m" ⟨100, ".pt", 2⟩).2 =
      "m_100.pt" ∧
    get_model_path
        (save_model (save_model [] "m" ⟨200, ".pt", 1⟩).1 "m" ⟨100, ".pt", 2⟩).1
        "m" = some ⟨"m_200.pt", 200, 1⟩ ∧
    ("m_200.pt" : String) ≠ "m_100.pt" := by
  refine ⟨rfl, rfl, by decide⟩

/-- C5 (amended): after `delete_model`, `get_model_path` for the same
`(tenant, model_name)` always fails with not-found; after
`save_model`, `get_model_path` resolves to the file with the greatest
stored mtime — the mtime `copy2` inherits from the source — so the
just-saved file is returned whenever its source mtime is strictly
greater than every matching file's mtime (and its fresh name is not a
`.labels` name). Selection is by source-mtime order, not save
order. -/
theorem C5_round_trip :
    (∀ (dir : Dir) (m : String),
      get_model_path (delete_model dir m).1 m = none) ∧
    (∀ (dir : Dir) (m : String) (src : SrcFile),
      (∀ e ∈ dir, e.name ≠ destName m src) →
      (∀ e ∈ candidates dir m, e.mtime < src.mtime) →
      isLabelsFile ⟨destName m src, src.mtime, src.content⟩ = false →
      get_model_path (save_model dir m src).1 m =
        some ⟨destName m src, src.mtime, src.content⟩) := by
  constructor
  · intro dir m
    unfold get_model_path
    rw [candidates_delete]
    rfl
  · intro dir m src hfresh hnewer hlab
    show (sortByMtimeDesc
        (candidates (writeFile dir ⟨destName m src, src.mtime, src.content⟩) m)).head? =
      some ⟨destName m src, src.mtime, src.content⟩
    rw [writeFile_fresh dir _ (fun x hx => hfresh x hx)]
    have hcand : candidates (dir ++ [⟨destName m src, src.mtime, src.content⟩]) m =
        candidates dir m ++ [⟨destName m src, src.mtime, src.content⟩] := by
      unfold candidates
      rw [List.filter_append]
      simp [globMatch_destName, hlab]
    rw [hcand]
    exact head_sort_strict _ _ hnewer

/-- C5 (witness): the round trip evaluated on a concrete store: save
`m` (source mtime 100), save `m` again (source mtime 200), resolve;
then delete and resolve. -/
theorem C5_round_trip_witness :
    get_model_path (save_model [⟨"m_100.pt", 100, 1⟩] "m" ⟨200, ".pt", 2⟩).1 "m" =
      some ⟨"m_200.pt", 200, 2⟩ ∧
    get_model_path (delete_model [⟨"m_100.pt", 100, 1⟩, ⟨"m_200.pt", 200, 2⟩] "m").1
      "m" = none := by
  constructor
  · exact C5_round_trip.2 [⟨"m_100.pt", 100, 1⟩] "m" ⟨200, ".pt", 2⟩
      (by decide) (by decide) (by decide)
  · exact C5_round_trip.1 [⟨"m_100.pt", 100, 1⟩, ⟨"m_200.pt", 200, 2⟩] "m"

/-- C10: model-name matching is by name prefix. In the store obtained
by saving model `m` (source mtime 100) and model `m2` (source mtime
500) for the same tenant — `m` a proper prefix of `m2` —
`get_model_path` for `m` returns the artifact saved under `m2`, and
`delete_model` for `m` deletes the files of both models (the
directory is left empty). -/
theorem C10_prefix_matching :
    ("m" : String) ≠ "m2" ∧
    "m".data.isPrefixOf "m2".data = true ∧
    get_model_path
        (save_model (save_model [] "m" ⟨100, ".pt", 1⟩).1 "m2" ⟨500, ".pt", 2⟩).1
        "m" = some ⟨"m2_500.pt", 500, 2⟩ ∧
    delete_model
        (save_model (save_model [] "m" ⟨100, ".pt", 1⟩).1 "m2" ⟨500, ".pt", 2⟩).1
        "m" = ([], true) := by
  refine ⟨by decide, by decide, rfl, rfl⟩

/-- C3: the code violates per-tenant mutual exclusion. `_get_user_sem`
creates the tenant's semaphore with an unguarded check-then-store:
when two jobs of the same tenant run it concurrently before the
semaphore exists, both can observe the key absent, each creates its
own `Semaphore(1)` (the second store overwriting the first), and each
acquires the distinct semaphore object it obtained — so with a global
limit of 2 both jobs are inside the training critical section at the
same time. The schedule below drives the two-job model into exactly
that state: both jobs at `pcRunning`, holding different semaphore
objects. -/
theorem C3_race_both_running :
    bothRunning (runSched (initState 2)
        [false, true, true, true, false, false, false, false, true, true]) =
      true ∧
    (runSched (initState 2)
        [false, true, true, true, false, false, false, false, true, true]).job0.mySem ≠
      (runSched (initState 2)
        [false, true, true, true, false, false, false, false, true, true]).job1.mySem := by
  constructor
  · rfl
  · decide

theorem runEpochs_ok (o : Oracle) (losses maps : List Int) (cb : Bool)
    (h : ∀ i, o.metricRaises i = false) (n : Nat) : ∀ start : Nat,
    metricEvents (runEpochs o losses maps cb start n).1 =
      (List.range' start n).map
        (fun i => (i + 1, losses.getD i 0, maps.getD i 0)) ∧
    (runEpochs o losses maps cb start n).2 = true := by
  induction n with
  | zero => intro start; exact ⟨rfl, rfl⟩
  | succ k ih =>
    intro start
    have hm := h start
    have ih2 := ih (start + 1)
    rw [List.range'_succ start k 1]
    simp only [runEpochs, hm, Bool.false_eq_true, if_false, metricEvents,
      List.filterMap_cons, List.filterMap_append] at ih2 ⊢
    by_cases hcb : (cb && !(o.cbRaises start)) = true
    · simp only [hcb, if_pos, List.filterMap_cons, List.filterMap_nil]
      exact ⟨by simp [ih2.1], ih2.2⟩
    · simp only [eq_false_of_ne_true hcb, Bool.false_eq_true, if_false,
        List.filterMap_nil]
      exact ⟨by simp [ih2.1], ih2.2⟩

theorem runEpochs_only_metrics (o : Oracle) (losses maps : List Int) (cb : Bool)
    (n : Nat) : ∀ start : Nat,
    savedArtifact (runEpochs o losses maps cb start n).1 = false ∧
    ranRunDb (runEpochs o losses maps cb start n).1 = false := by
  induction n with
  | zero => intro start; exact ⟨rfl, rfl⟩
  | succ k ih =>
    intro start
    have ih2 := ih (start + 1)
    simp only [runEpochs]
    by_cases hm : o.metricRaises start = true
    · simp [hm, savedArtifact, ranRunDb]
    · simp only [eq_false_of_ne_true hm, Bool.false_eq_true, if_false]
      simp only [savedArtifact, ranRunDb, List.any_cons, List.any_append] at ih2 ⊢
      by_cases hcb : (cb && !(o.cbRaises start)) = true
      · simp [hcb, ih2.1, ih2.2]
      · simp [eq_false_of_ne_true hcb, ih2.1, ih2.2]

/-- C6: for every job whose training capability completes and reports
one metric set per requested epoch, exactly `epochs` metric records
are appended to the metrics store for that run, with epoch numbers
`1..epochs` and the loss/mAP values reported by the capability, in
order — regardless of what happens later in the job body (artifact
save or final persistence may still fail). -/
theorem C6_metrics_complete (rec : RunRecord) (cb : Bool) (o : Oracle)
    (res : TrainResult) (hout : o.trainOutcome = some res)
    (hbox : o.boxAttrRaises = false)
    (hms : ∀ i, o.metricRaises i = false)
    (hlen1 : res.losses.length = rec.epochs.toNat)
    (hlen2 : res.maps.length = rec.epochs.toNat) :
    metricEvents (trainJob rec cb o).events =
      (List.range rec.epochs.toNat).map
        (fun i => (i + 1, res.losses.getD i 0, res.maps.getD i 0)) := by
  have hloop := runEpochs_ok o res.losses res.maps cb hms rec.epochs.toNat 0
  rw [List.range_eq_range' rec.epochs.toNat]
  unfold trainJob trainJobBody
  rw [hout]
  simp only [hbox, Bool.false_eq_true, if_false, hloop.2, Bool.not_true]
  by_cases hsm : o.saveModelRaises = true
  · simp only [hsm, if_pos, if_true]
    simp only [metricEvents, List.filterMap_append, List.filterMap_cons,
      List.filterMap_nil, List.append_nil] at hloop ⊢
    exact hloop.1
  · simp only [eq_false_of_ne_true hsm, Bool.false_eq_true, if_false]
    by_cases hdb : o.runDbRaises = true
    · simp only [hdb, if_pos, if_true]
      simp only [metricEvents, List.filterMap_append, List.filterMap_cons,
        List.filterMap_nil, List.append_nil] at hloop ⊢
      exact hloop.1
    · simp only [eq_false_of_ne_true hdb, Bool.false_eq_true, if_false]
      simp only [metricEvents, List.filterMap_append, List.filterMap_cons,
        List.filterMap_nil, List.append_nil] at hloop ⊢
      exact hloop.1

/-- C6 (witness): the spec's concrete scenario — tenant `alice`,
3 epochs, reported losses and mAPs carried as the integer stand-ins
`[9, 5, 2]` / `[1, 4, 6]` — yields exactly the three metric records
`(1, 9, 1), (2, 5, 4), (3, 2, 6)`. -/
theorem C6_metrics_complete_witness :
    metricEvents (trainJob ⟨"alice", "run", "yolov8n.pt", "ds", 3, none⟩ true
        ⟨some ⟨[9, 5, 2], [1, 4, 6], "p"⟩, false, fun _ => false, fun _ => false,
         false, false⟩).events =
      [(1, 9, 1), (2, 5, 4), (3, 2, 6)] := by
  have h := C6_metrics_complete ⟨"alice", "run", "yolov8n.pt", "ds", 3, none⟩ true
    ⟨some ⟨[9, 5, 2], [1, 4, 6], "p"⟩, false, fun _ => false, fun _ => false,
     false, false⟩ ⟨[9, 5, 2], [1, 4, 6], "p"⟩ rfl rfl (fun _ => rfl) rfl rfl
  exact h.trans (by decide)

/-- C7 (counterexample): a MetricsSink failure aborts the job. With
one epoch and `metrics_db.save_metric` raising, the job body stops at
the first append: no artifact is saved, `final_model_path` stays
unset, nothing is persisted, and the exception propagates out of
`_train_job` (it is not caught or logged anywhere in the job body) —
refuting the claim that persistence failures do not abort the job. -/
theorem C7_counterexample :
    trainJob ⟨"alice", "run", "yolov8n.pt", "ds", 1, none⟩ false
        ⟨some ⟨[9], [1], "p"⟩, false, fun _ => true, fun _ => false, false,
         false⟩ =
      ⟨[Event.userSemReleased, Event.globalSemReleased], none, true⟩ ∧
    savedArtifact (trainJob ⟨"alice", "run", "yolov8n.pt", "ds", 1, none⟩ false
        ⟨some ⟨[9], [1], "p"⟩, false, fun _ => true, fun _ => false, false,
         false⟩).events = false := by
  constructor <;> rfl

/-- C7 (amended): neither persistence call in the job body is guarded.
A `MetricsSink.save_metric` failure (here: at the first epoch of a
run with at least one epoch) aborts the rest of the job — no metric
record, no artifact save, `final_model_path` left as it was, the
exception escaping into the pool future. A `RunStateStore.save`
failure happens after `final_model_path` has been set in memory, so
the in-memory record has advanced, but the exception likewise
propagates uncaught (it is not logged and nothing is persisted). -/
theorem C7_persistence_unguarded :
    (∀ (rec : RunRecord) (cb : Bool) (o : Oracle) (res : TrainResult),
      o.trainOutcome = some res → o.metricRaises 0 = true →
      0 < rec.epochs.toNat →
      trainJob rec cb o =
        ⟨[Event.userSemReleased, Event.globalSemReleased],
         rec.final_model_path, true⟩) ∧
    (∀ (rec : RunRecord) (cb : Bool) (o : Oracle) (res : TrainResult),
      o.trainOutcome = some res → (∀ i, o.metricRaises i = false) →
      o.saveModelRaises = false → o.runDbRaises = true →
      (trainJob rec cb o).final_model_path = some res.savedPath ∧
      (trainJob rec cb o).raised = true ∧
      ranRunDb (trainJob rec cb o).events = false) := by
  constructor
  · intro rec cb o res hout hm0 hpos
    obtain ⟨k, hk⟩ : ∃ k, rec.epochs.toNat = k + 1 :=
      ⟨rec.epochs.toNat - 1, by omega⟩
    unfold trainJob trainJobBody
    rw [hout, hk]
    by_cases hbox : o.boxAttrRaises = true
    · simp [runEpochs, hm0, hbox]
    · simp [runEpochs, hm0, eq_false_of_ne_true hbox]
  · intro rec cb o res hout hms hsm hdb
    have hloop := runEpochs_ok o
      (if o.boxAttrRaises then [] else res.losses)
      (if o.boxAttrRaises then [] else res.maps) cb hms rec.epochs.toNat 0
    have honly := runEpochs_only_metrics o
      (if o.boxAttrRaises then [] else res.losses)
      (if o.boxAttrRaises then [] else res.maps) cb rec.epochs.toNat 0
    unfold trainJob trainJobBody
    rw [hout]
    simp only [hloop.2, Bool.not_true, Bool.false_eq_true, if_false, hsm, hdb,
      if_true]
    refine ⟨by simp, by simp, ?_⟩
    simp only [ranRunDb, List.any_append] at honly ⊢
    simp [honly.2, ranRunDb]

/-- C7 (witness): the unguarded-persistence behaviour evaluated on a
concrete run (metrics failure at the first of one epoch). -/
theorem C7_persistence_unguarded_witness :
    trainJob ⟨"carol", "r", "m.pt", "d", 1, none⟩ false
        ⟨some ⟨[7], [3], "q"⟩, false, fun _ => true, fun _ => false, false,
         false⟩ =
      ⟨[Event.userSemReleased, Event.globalSemReleased], none, true⟩ :=
  C7_persistence_unguarded.1 ⟨"carol", "r", "m.pt", "d", 1, none⟩ false
    ⟨some ⟨[7], [3], "q"⟩, false, fun _ => true, fun _ => false, false, false⟩
    ⟨[7], [3], "q"⟩ rfl rfl (by decide)

theorem metricEvents_stripCb (l : List Event) :
    metricEvents (stripCb l) = metricEvents l := by
  induction l with
  | nil => rfl
  | cons e t ih =>
    cases e <;> simp [stripCb, metricEvents, isCbEvent, List.filter_cons] at ih ⊢ <;>
      exact ih

theorem savedArtifact_stripCb (l : List Event) :
    savedArtifact (stripCb l) = savedArtifact l := by
  induction l with
  | nil => rfl
  | cons e t ih =>
    cases e <;> simp [stripCb, savedArtifact, isCbEvent, List.filter_cons] at ih ⊢ <;>
      exact ih

theorem runEpochs_cb_invariant (o1 o2 : Oracle)
    (hmr : o1.metricRaises = o2.metricRaises)
    (losses maps : List Int) (cb : Bool) (n : Nat) : ∀ start : Nat,
    stripCb (runEpochs o1 losses maps cb start n).1 =
      stripCb (runEpochs o2 losses maps cb start n).1 ∧
    (runEpochs o1 losses maps cb start n).2 =
      (runEpochs o2 losses maps cb start n).2 := by
  induction n with
  | zero => intro start; exact ⟨rfl, rfl⟩
  | succ k ih =>
    intro start
    have ih2 := ih (start + 1)
    simp only [runEpochs, hmr]
    by_cases hm : o2.metricRaises start = true
    · simp [hm]
    · simp only [eq_false_of_ne_true hm, Bool.false_eq_true, if_false]
      refine ⟨?_, ih2.2⟩
      have h1 := ih2.1
      simp only [stripCb, List.filter_append, List.filter_cons] at h1 ⊢
      cases cb <;> cases hfs : o1.cbRaises start <;> cases hgs : o2.cbRaises start <;>
        simp_all [isCbEvent]

theorem trainJobBody_cb_invariant (rec : RunRecord) (cb : Bool) (o1 o2 : Oracle)
    (h1 : o1.trainOutcome = o2.trainOutcome)
    (h2 : o1.boxAttrRaises = o2.boxAttrRaises)
    (h3 : o1.metricRaises = o2.metricRaises)
    (h4 : o1.saveModelRaises = o2.saveModelRaises)
    (h5 : o1.runDbRaises = o2.runDbRaises) :
    stripCb (trainJobBody rec cb o1).events =
      stripCb (trainJobBody rec cb o2).events ∧
    (trainJobBody rec cb o1).final_model_path =
      (trainJobBody rec cb o2).final_model_path ∧
    (trainJobBody rec cb o1).raised = (trainJobBody rec cb o2).raised := by
  unfold trainJobBody
  rw [h1, h2, h4, h5]
  cases hout : o2.trainOutcome with
  | none => exact ⟨rfl, rfl, rfl⟩
  | some res =>
    have hinv := runEpochs_cb_invariant o1 o2 h3
      (if o2.boxAttrRaises then [] else res.losses)
      (if o2.boxAttrRaises then [] else res.maps) cb rec.epochs.toNat 0
    simp only
    rw [hinv.2]
    by_cases hok : (runEpochs o2 (if o2.boxAttrRaises then [] else res.losses)
        (if o2.boxAttrRaises then [] else res.maps) cb 0 rec.epochs.toNat).2 = true
    · simp only [hok, Bool.not_true, Bool.false_eq_true, if_false]
      by_cases hsm : o2.saveModelRaises = true
      · simp only [hsm, if_true]
        exact ⟨hinv.1, by trivial, by trivial⟩
      · simp only [eq_false_of_ne_true hsm, Bool.false_eq_true, if_false]
        by_cases hdb : o2.runDbRaises = true
        · simp only [hdb, if_true]
          refine ⟨?_, by trivial, by trivial⟩
          simp only [stripCb, List.filter_append] at hinv ⊢
          simp [hinv.1]
        · simp only [eq_false_of_ne_true hdb, Bool.false_eq_true, if_false]
          refine ⟨?_, by trivial, by trivial⟩
          simp only [stripCb, List.filter_append] at hinv ⊢
          simp [hinv.1]
    · simp only [eq_false_of_ne_true hok, Bool.not_false, if_true]
      exact ⟨hinv.1, by trivial, by trivial⟩

/-- C9: callback exceptions are isolated. For every run and every
pair of failure patterns of the user-supplied progress callback, the
job body's outcome is identical except for the callback invocations
themselves: the trace with callback events removed (so every metric
append, the artifact save and the final persistence), the record's
`final_model_path`, whether an exception escaped, the metric records
and the artifact-save outcome are all unchanged. In particular a
callback that raises at every epoch changes nothing but the callback
events. -/
theorem C9_callback_isolated (rec : RunRecord) (cb : Bool) (o : Oracle)
    (f g : Nat → Bool) :
    stripCb (trainJob rec cb { o with cbRaises := f }).events =
      stripCb (trainJob rec cb { o with cbRaises := g }).events ∧
    (trainJob rec cb { o with cbRaises := f }).final_model_path =
      (trainJob rec cb { o with cbRaises := g }).final_model_path ∧
    (trainJob rec cb { o with cbRaises := f }).raised =
      (trainJob rec cb { o with cbRaises := g }).raised ∧
    metricEvents (trainJob rec cb { o with cbRaises := f }).events =
      metricEvents (trainJob rec cb { o with cbRaises := g }).events ∧
    savedArtifact (trainJob rec cb { o with cbRaises := f }).events =
      savedArtifact (trainJob rec cb { o with cbRaises := g }).events := by
  have hbody := trainJobBody_cb_invariant rec cb { o with cbRaises := f }
    { o with cbRaises := g } rfl rfl rfl rfl rfl
  have hmain :
      stripCb (trainJob rec cb { o with cbRaises := f }).events =
        stripCb (trainJob rec cb { o with cbRaises := g }).events ∧
      (trainJob rec cb { o with cbRaises := f }).final_model_path =
        (trainJob rec cb { o with cbRaises := g }).final_model_path ∧
      (trainJob rec cb { o with cbRaises := f }).raised =
        (trainJob rec cb { o with cbRaises := g }).raised := by
    unfold trainJob
    refine ⟨?_, hbody.2.1, hbody.2.2⟩
    simp only [stripCb, List.filter_append] at hbody ⊢
    simp [hbody.1]
  refine ⟨hmain.1, hmain.2.1, hmain.2.2, ?_, ?_⟩
  · rw [← metricEvents_stripCb, hmain.1, metricEvents_stripCb]
  · rw [← savedArtifact_stripCb, hmain.1, savedArtifact_stripCb]

theorem decode_encode (r : RunRecord) : decodeRun (encodeRun r) = some r := by
  cases r with
  | mk u rn bm dd ep fp => cases fp <;> rfl

theorem load_storeSave_self (tbl : RunTable) (k : String) (r : RunRecord) :
    load_all (storeSave tbl k r) k = some r := by
  unfold load_all storeSave
  rw [List.find?_append]
  have hnone : (tbl.filter (fun p => !(p.1 == k))).find? (fun p => p.1 == k) =
      none := by
    rw [List.find?_eq_none]
    intro x hx
    have := List.of_mem_filter hx
    simp at this
    simp [this]
  rw [hnone]
  simp [decode_encode]

theorem load_storeSave_other (tbl : RunTable) (k k' : String) (r : RunRecord)
    (h : k' ≠ k) : load_all (storeSave tbl k r) k' = load_all tbl k' := by
  unfold load_all storeSave
  rw [List.find?_append]
  have h2 : (tbl.filter (fun p => !(p.1 == k))).find? (fun p => p.1 == k') =
      tbl.find? (fun p => p.1 == k') := by
    induction tbl with
    | nil => rfl
    | cons x xs ih =>
      by_cases hx : (x.1 == k) = true
      · have hxk : x.1 = k := by simpa using hx
        have hne : (x.1 == k') = false := by
          simp [hxk]
          exact fun heq => h heq.symm
        simp [List.filter_cons, hx, List.find?_cons, hne, ih]
      · simp only [List.filter_cons, hx, Bool.not_false, if_true]
        rw [List.find?_cons, List.find?_cons]
        cases hx' : (x.1 == k') <;> simp [ih]
    -- either x is kept by the filter (key ≠ k) and both sides agree on it,
    -- or x is dropped but then its key is k ≠ k' so find? skips it anyway
  rw [h2]
  cases hf : tbl.find? (fun p => p.1 == k') with
  | none =>
    have hkk : (k == k') = false := by
      simp
      exact fun heq => h heq.symm
    simp [List.find?_cons, hkk]
  | some p => simp

theorem loadAll_untouched (l : List (String × RunRecord)) (k : String)
    (h : ∀ p ∈ l, p.1 ≠ k) : ∀ tbl : RunTable,
    load_all (l.foldl (fun t p => storeSave t p.1 p.2) tbl) k = load_all tbl k := by
  induction l with
  | nil => intro tbl; rfl
  | cons x xs ih =>
    intro tbl
    simp only [List.foldl_cons]
    rw [ih (fun p hp => h p (List.mem_cons_of_mem x hp))]
    exact load_storeSave_other tbl x.1 k x.2
      (fun heq => h x (List.mem_cons_self x xs) heq.symm)

theorem loadAll_foldl (l : List (String × RunRecord))
    (hnd : (l.map Prod.fst).Nodup) : ∀ (tbl : RunTable), ∀ p ∈ l,
    load_all (l.foldl (fun t q => storeSave t q.1 q.2) tbl) p.1 = some p.2 := by
  induction l with
  | nil => intro tbl p hp; cases hp
  | cons x xs ih =>
    intro tbl p hp
    simp only [List.map_cons, List.nodup_cons] at hnd
    simp only [List.foldl_cons]
    rcases List.mem_cons.1 hp with rfl | hp2
    · have hx : ∀ q ∈ xs, q.1 ≠ p.1 := by
        intro q hq heq
        exact hnd.1 (heq ▸ List.mem_map_of_mem Prod.fst hq)
      rw [loadAll_untouched xs p.1 hx]
      exact load_storeSave_self tbl p.1 p.2
    · exact ih hnd.2 _ p hp2

/-- C8: crash-recovery round trip of the run-state store. Persisting
any batch of run records with pairwise-distinct `run_id`s through
`save` and then reading with `load_all` returns every record, keyed
by `run_id`, with field values identical to those saved (the stored
JSON decodes back to the exact record); and a later `save` for the
same `run_id` replaces the earlier one (last-write-wins). -/
theorem C8_round_trip :
    (∀ (l : List (String × RunRecord)), (l.map Prod.fst).Nodup →
      ∀ p ∈ l, load_all (saveAll l) p.1 = some p.2) ∧
    (∀ (tbl : RunTable) (k : String) (r1 r2 : RunRecord),
      load_all (storeSave (storeSave tbl k r1) k r2) k = some r2) := by
  constructor
  · intro l hnd p hp
    exact loadAll_foldl l hnd [] p hp
  · intro tbl k r1 r2
    exact load_storeSave_self (storeSave tbl k r1) k r2

/-- C8 (witness): two concrete records round-trip, and re-saving
`r1` replaces its first version. -/
theorem C8_round_trip_witness :
    load_all (saveAll [("r1", ⟨"alice", "a", "b", "c", 3, none⟩),
        ("r2", ⟨"bob", "d", "e", "f", 2, some "p"⟩)]) "r1" =
      some ⟨"alice", "a", "b", "c", 3, none⟩ ∧
    load_all (storeSave (storeSave [] "r1" ⟨"alice", "a", "b", "c", 3, none⟩)
        "r1" ⟨"alice", "a", "b", "c", 3, some "q"⟩) "r1" =
      some ⟨"alice", "a", "b", "c", 3, some "q"⟩ := by
  constructor
  · exact C8_round_trip.1 [("r1", ⟨"alice", "a", "b", "c", 3, none⟩),
      ("r2", ⟨"bob", "d", "e", "f", 2, some "p"⟩)] (by decide) _
      (List.mem_cons_self _ _)
  · exact C8_round_trip.2 [] "r1" ⟨"alice", "a", "b", "c", 3, none⟩
      ⟨"alice", "a", "b", "c", 3, some "q"⟩

theorem jobStep_preserves (v g othersRunning : Nat) (pc : Pc) (my : Option Nat)
    (hj : jobOk ⟨pc, my⟩)
    (hc : v + ((if pc = Pc.pcRunning then 1 else 0) + othersRunning) = 1) :
    ∃ v2 g2 pc2 my2,
      jobStep ⟨some 0, [v], g⟩ ⟨pc, my⟩ = (⟨some 0, [v2], g2⟩, ⟨pc2, my2⟩) ∧
      jobOk ⟨pc2, my2⟩ ∧
      v2 + ((if pc2 = Pc.pcRunning then 1 else 0) + othersRunning) = 1 := by
  obtain ⟨hstore, hsem⟩ := hj
  cases pc with
  | pcTest =>
    refine ⟨v, g, Pc.pcReturn, my, by simp [jobStep], ⟨by simp, ?_⟩, ?_⟩
    · intro h; rcases h with h | h | h | h <;> simp at h
    · simpa using hc
  | pcStore => exact absurd rfl hstore
  | pcReturn =>
    refine ⟨v, g, Pc.pcAcqGlobal, some 0, by simp [jobStep], ⟨by simp, ?_⟩, ?_⟩
    · intro _; rfl
    · simpa using hc
  | pcAcqGlobal =>
    have hmy : my = some 0 := hsem (Or.inl rfl)
    by_cases hg : g > 0
    · refine ⟨v, g - 1, Pc.pcAcqUser, my, by simp [jobStep, hg], ⟨by simp, ?_⟩, ?_⟩
      · intro _; exact hmy
      · simpa using hc
    · refine ⟨v, g, Pc.pcAcqGlobal, my, by simp [jobStep, hg], ⟨by simp, ?_⟩, ?_⟩
      · intro _; exact hmy
      · simpa using hc
  | pcAcqUser =>
    have hmy : my = some 0 := hsem (Or.inr (Or.inl rfl))
    subst hmy
    by_cases hv : v > 0
    · refine ⟨v - 1, g, Pc.pcRunning, some 0, by simp [jobStep, hv], ⟨by simp, ?_⟩, ?_⟩
      · intro _; rfl
      · simp at hc ⊢; omega
    · refine ⟨v, g, Pc.pcAcqUser, some 0, by simp [jobStep, hv], ⟨by simp, ?_⟩, ?_⟩
      · intro _; rfl
      · simpa using hc
  | pcRunning =>
    have hmy : my = some 0 := hsem (Or.inr (Or.inr (Or.inl rfl)))
    subst hmy
    refine ⟨v + 1, g + 1, Pc.pcDone, some 0, by simp [jobStep], ⟨by simp, ?_⟩, ?_⟩
    · intro _; rfl
    · simp at hc ⊢; omega
  | pcDone =>
    refine ⟨v, g, Pc.pcDone, my, by simp [jobStep], ⟨hstore, hsem⟩, ?_⟩
    · simpa using hc

theorem semInv_step (s : CState) (pick : Bool) (h : semInv s) :
    semInv (schedStep s pick) := by
  obtain ⟨⟨dict, semVals, g⟩, ⟨pc0, my0⟩, ⟨pc1, my1⟩⟩ := s
  obtain ⟨hd, hl, hj0, hj1, hc⟩ := h
  simp only at hd hl hc
  subst hd
  obtain ⟨v, hv⟩ : ∃ v, semVals = [v] := by
    cases semVals with
    | nil => simp at hl
    | cons a t =>
      cases t with
      | nil => exact ⟨a, rfl⟩
      | cons b t2 => simp at hl
  subst hv
  cases pick
  · have hstep := jobStep_preserves v g
      (if pc1 = Pc.pcRunning then 1 else 0) pc0 my0 hj0
      (by simpa [runningCount] using hc)
    obtain ⟨v2, g2, pc2, my2, heq, hok2, hc2⟩ := hstep
    refine ⟨?_, ?_, ?_, ?_, ?_⟩
    · simp [schedStep, heq]
    · simp [schedStep, heq]
    · simp only [schedStep, Bool.false_eq_true, if_false, heq]
      exact hok2
    · simp only [schedStep, Bool.false_eq_true, if_false, heq]
      exact hj1
    · simp only [schedStep, Bool.false_eq_true, if_false, heq, runningCount]
      simpa [runningCount] using hc2
  · have hstep := jobStep_preserves v g
      (if pc0 = Pc.pcRunning then 1 else 0) pc1 my1 hj1
      (by simp [runningCount] at hc ⊢; omega)
    obtain ⟨v2, g2, pc2, my2, heq, hok2, hc2⟩ := hstep
    refine ⟨?_, ?_, ?_, ?_, ?_⟩
    · simp [schedStep, heq]
    · simp [schedStep, heq]
    · simp only [schedStep, if_true, heq]
      exact hj0
    · simp only [schedStep, if_true, heq]
      exact hok2
    · simp only [schedStep, if_true, heq, runningCount]
      simp [runningCount] at hc2 ⊢
      omega

theorem semInv_runSched (sched : List Bool) : ∀ s : CState, semInv s →
    semInv (runSched s sched) := by
  induction sched with
  | nil => intro s h; exact h
  | cons p ps ih => intro s h; exact ih (schedStep s p) (semInv_step s p h)

/-- When the tenant's `Semaphore(1)` already exists before the two
jobs start (so the racy creation branch of `_get_user_sem` is never
taken), per-tenant mutual exclusion does hold along every schedule:
the two same-tenant jobs are never inside the training critical
section simultaneously, whatever the global limit. The violation in
the lazy-creation race is therefore exactly the unguarded
check-then-store of `_get_user_sem`. -/
theorem preCreated_mutual_exclusion (g : Nat) (sched : List Bool) :
    bothRunning (runSched (initStatePre g) sched) = false := by
  have h0 : semInv (initStatePre g) := by
    refine ⟨rfl, rfl, ⟨by simp [initStatePre], ?_⟩, ⟨by simp [initStatePre], ?_⟩,
      by simp [runningCount, initStatePre]⟩
    · intro h; rcases h with h | h | h | h <;> simp [initStatePre] at h
    · intro h; rcases h with h | h | h | h <;> simp [initStatePre] at h
  have h := semInv_runSched sched _ h0
  obtain ⟨-, -, -, -, hc⟩ := h
  cases hb : bothRunning (runSched (initStatePre g) sched)
  · rfl
  · exfalso
    unfold bothRunning at hb
    rw [Bool.and_eq_true] at hb
    have h1 : (runSched (initStatePre g) sched).job0.pc = Pc.pcRunning := by
      have := hb.1; simpa using this
    have h2 : (runSched (initStatePre g) sched).job1.pc = Pc.pcRunning := by
      have := hb.2; simpa using this
    have hrc : runningCount (runSched (initStatePre g) sched) = 2 := by
      simp [runningCount, h1, h2]
    rw [hrc] at hc
    omega

end YoloForWeb
